import Mathlib

/-!
Verification of the mailcheck_lib core against its specification.

This file shallowly embeds the relevant Rust functions of the repository
(`src/auth/spf.rs`, `src/auth/dkim.rs`, `src/smtp_verify/session.rs`,
`src/smtp_verify/probe.rs`, `src/smtp_verify/util.rs`,
`src/mx/deliverability/mod.rs`, `src/validator/spec.rs`) as executable Lean
definitions and proves or refutes the specification claims about them.

Modelling conventions:
* Rust `String`/`&str` values are Lean `String`; all string manipulation is
  performed on `String.data` (`List Char`) with explicit helper functions so
  that every definition reduces in the kernel.  Rust indexes byte positions;
  the records and protocol lines handled here are ASCII, where bytes and
  characters coincide.
* Rust `u16`/`usize` become `Nat` (all arithmetic here is bounded well below
  overflow: SMTP codes are parsed from at most three digits and explicitly
  checked against 65535 where the source checks them).
* Fallible code returns `Except`/`Option`.
* `f32` confidence literals are modelled as exact rationals.
-/

namespace Mailcheck

/-! ## String helpers mirroring the Rust standard library operations used -/

/-- Rust `char::to_ascii_lowercase`. -/
def ascii_lower_char (c : Char) : Char :=
  if 65 ≤ c.toNat ∧ c.toNat ≤ 90 then Char.ofNat (c.toNat + 32) else c

/-- Rust `str::to_ascii_lowercase`. -/
def ascii_lower (s : String) : String :=
  String.mk (s.data.map ascii_lower_char)

/-- Rust `str::eq_ignore_ascii_case`. -/
def eq_ignore_ascii_case (a b : String) : Bool :=
  a.data.map ascii_lower_char == b.data.map ascii_lower_char

/-- Rust `str::trim` on a character list (drop whitespace from both ends). -/
def trim_chars (l : List Char) : List Char :=
  ((l.dropWhile Char.isWhitespace).reverse.dropWhile Char.isWhitespace).reverse

/-- Rust `str::trim`. -/
def trim (s : String) : String :=
  String.mk (trim_chars s.data)

/-- Splitting a character list at every separator satisfying `p`
(Rust `str::split` semantics: `n` separators yield `n + 1` pieces). -/
def split_pred (p : Char → Bool) : List Char → List (List Char)
  | [] => [[]]
  | c :: rest =>
    let r := split_pred p rest
    if p c then [] :: r
    else
      match r with
      | h :: t => (c :: h) :: t
      | [] => [[c]]

/-- Rust `str::split(sep)`. -/
def split_char (s : String) (sep : Char) : List String :=
  (split_pred (fun c => c == sep) s.data).map String.mk

/-- Rust `str::split_whitespace` (split on whitespace, dropping empty pieces). -/
def split_whitespace (s : String) : List String :=
  ((split_pred Char.isWhitespace s.data).filter (fun piece => ¬ piece.isEmpty)).map
    String.mk

/-- Rust `str::starts_with` for a string pattern. -/
def starts_with (s pre : String) : Bool :=
  List.isPrefixOf pre.data s.data

/-- `starts_with_ignore_ascii_case` from `src/auth/spf.rs`:
`input.get(..prefix.len())` compared with `eq_ignore_ascii_case`
(a too-short input yields `false`). -/
def starts_with_ignore_ascii_case (input pre : String) : Bool :=
  (input.data.take pre.data.length).map ascii_lower_char ==
    pre.data.map ascii_lower_char

/-- Rust `str::split_once(sep)`: the pieces before and after the first
occurrence of the separator, or `none` when the separator is absent. -/
def split_once_list (sep : Char) : List Char → Option (List Char × List Char)
  | [] => none
  | c :: rest =>
    if c = sep then some ([], rest)
    else
      match split_once_list sep rest with
      | some (before, after) => some (c :: before, after)
      | none => none

/-- Rust `str::split_once(sep)` on strings. -/
def split_once (s : String) (sep : Char) : Option (String × String) :=
  match split_once_list sep s.data with
  | some (before, after) => some (String.mk before, String.mk after)
  | none => none

/-- Lexicographic (code-point) order on strings, as Rust `Vec<String>::sort`
uses (UTF-8 byte order coincides with code-point order). -/
def char_list_le : List Char → List Char → Bool
  | [], _ => true
  | _ :: _, [] => false
  | a :: as_, b :: bs =>
    if a.toNat < b.toNat then true
    else if b.toNat < a.toNat then false
    else char_list_le as_ bs

/-- String comparison used by `sort_strings`. -/
def string_le (a b : String) : Bool :=
  char_list_le a.data b.data

/-- Rust `Vec<String>::sort` (strings form a total order, so any sorted
rearrangement is unique; insertion sort is used here). -/
def insert_sorted (x : String) : List String → List String
  | [] => [x]
  | y :: rest => if string_le x y then x :: y :: rest else y :: insert_sorted x rest

/-- Sorting a list of strings in nondecreasing lexicographic order. -/
def sort_strings : List String → List String
  | [] => []
  | x :: rest => insert_sorted x (sort_strings rest)

/-- Rust `Vec::dedup`: remove consecutive duplicates. -/
def dedup_consecutive : List String → List String
  | [] => []
  | [a] => [a]
  | a :: b :: rest =>
    if a = b then dedup_consecutive (b :: rest)
    else a :: dedup_consecutive (b :: rest)

/-! ## SPF evaluation (`src/auth/spf.rs`) -/

namespace Spf

/-- `SpfQualifier` from `src/auth/spf.rs`. -/
inductive SpfQualifier where
  | Fail
  | SoftFail
  | Neutral
  | Pass
deriving DecidableEq, Repr

/-- `SpfIssue` from `src/auth/spf.rs`. -/
inductive SpfIssue where
  | InvalidVersion
  | MissingAllMechanism
deriving DecidableEq, Repr

/-- `SpfStatus` from `src/auth/spf.rs`. -/
inductive SpfStatus where
  | Missing
  | MultipleRecords (records : List String)
  | Invalid (record : String) (issue : SpfIssue)
  | Delegated (record : String) (target : String)
  | Weak (record : String) (qualifier : SpfQualifier)
  | Compliant (record : String) (qualifier : SpfQualifier)
deriving DecidableEq, Repr

/-- `qualifier_from_token` from `src/auth/spf.rs`. -/
def qualifier_from_token (token : String) : Option SpfQualifier :=
  if token = "-all" then some SpfQualifier.Fail
  else if token = "~all" then some SpfQualifier.SoftFail
  else if token = "?all" then some SpfQualifier.Neutral
  else if token = "all" ∨ token = "+all" then some SpfQualifier.Pass
  else none

/-- One step of the token loop in `evaluate` (`src/auth/spf.rs` lines 77-95):
state is `(qualifier, redirect)`. -/
def token_step (st : Option SpfQualifier × Option String) (token : String) :
    Option SpfQualifier × Option String :=
  let trimmed := trim token
  if trimmed.isEmpty then st
  else
    let lower := ascii_lower trimmed
    let qualifier :=
      match st.1 with
      | some q => some q
      | none => qualifier_from_token lower
    let redirect :=
      match st.2 with
      | some t => some t
      | none =>
        if starts_with lower "redirect=" then
          match split_once trimmed '=' with
          | some (_, value) =>
            let v := trim value
            if v.isEmpty then none else some v
          | none => none
        else none
    (qualifier, redirect)

/-- The single-record tail of `evaluate` (`src/auth/spf.rs` lines 59-111):
version check, token scan, and final classification. -/
def evaluate_single (record : String) : SpfStatus :=
  match split_whitespace record with
  | [] => SpfStatus.Invalid record SpfIssue.InvalidVersion
  | version :: rest =>
    if ¬ eq_ignore_ascii_case version "v=spf1" then
      SpfStatus.Invalid record SpfIssue.InvalidVersion
    else
      let st := rest.foldl token_step (none, none)
      match st.1 with
      | some SpfQualifier.Fail => SpfStatus.Compliant record SpfQualifier.Fail
      | some SpfQualifier.SoftFail => SpfStatus.Compliant record SpfQualifier.SoftFail
      | some SpfQualifier.Neutral => SpfStatus.Weak record SpfQualifier.Neutral
      | some SpfQualifier.Pass => SpfStatus.Weak record SpfQualifier.Pass
      | none =>
        match st.2 with
        | some target => SpfStatus.Delegated record target
        | none => SpfStatus.Invalid record SpfIssue.MissingAllMechanism

/-- The trimmed records recognised as SPF (`evaluate` lines 40-45). -/
def spf_records (records : List String) : List String :=
  (records.map trim).filter (fun r => starts_with_ignore_ascii_case r "v=spf1")

/-- `evaluate` from `src/auth/spf.rs`. -/
def evaluate (records : List String) : SpfStatus :=
  let matched := spf_records records
  match matched with
  | [] => SpfStatus.Missing
  | [record] => evaluate_single record
  | _ =>
    SpfStatus.MultipleRecords (dedup_consecutive (sort_strings matched))

/-- Discriminator for the `MultipleRecords` variant. -/
def SpfStatus.isMultiple : SpfStatus → Bool
  | SpfStatus.MultipleRecords _ => true
  | _ => false

/-- `evaluate_single` never yields `Missing` or `MultipleRecords`. -/
theorem evaluate_single_not_missing (record : String) :
    evaluate_single record ≠ SpfStatus.Missing ∧
      (evaluate_single record).isMultiple = false := by
  unfold evaluate_single
  cases split_whitespace record with
  | nil => exact ⟨by simp, rfl⟩
  | cons version rest =>
    simp only
    split
    · exact ⟨by simp, rfl⟩
    · cases h : (rest.foldl token_step (none, none)).1 with
      | none =>
        cases h2 : (rest.foldl token_step (none, none)).2 with
        | none => simp [h, h2, SpfStatus.isMultiple]
        | some t => simp [h, h2, SpfStatus.isMultiple]
      | some q => cases q <;> simp [h, SpfStatus.isMultiple]

/-- C3 (counterexample): contrary to the claim, a list of two identical
`v=spf1` records still evaluates to `MultipleRecords` — the `> 1` check in
`evaluate` runs before sorting and deduplication, which only shrink the
record list carried inside the variant. -/
theorem spf_two_identical_records_still_multiple :
    evaluate ["v=spf1 ~all", "v=spf1 ~all"] =
      SpfStatus.MultipleRecords ["v=spf1 ~all"] := by
  decide

/-- C3 (amended): `evaluate` returns `Missing` exactly when zero trimmed
records start with `v=spf1` (ASCII-case-insensitively), and it returns
`MultipleRecords` exactly when at least two records match — distinct or not;
sorting and deduplication affect only the list carried by the variant. -/
theorem spf_missing_and_multiple_characterisation (records : List String) :
    (evaluate records = SpfStatus.Missing ↔ spf_records records = []) ∧
      ((evaluate records).isMultiple = true ↔ 2 ≤ (spf_records records).length) := by
  unfold evaluate
  cases h : spf_records records with
  | nil => simp [SpfStatus.isMultiple]
  | cons r rest =>
    cases rest with
    | nil =>
      have hs := evaluate_single_not_missing r
      simp only [List.length_cons, List.length_nil]
      constructor
      · constructor
        · intro hm; exact absurd hm hs.1
        · intro hc; exact absurd hc (by simp)
      · constructor
        · intro hm; rw [hs.2] at hm; exact absurd hm (by simp)
        · intro hc; omega
    | cons r2 rest2 =>
      constructor
      · constructor
        · intro hm; exact absurd hm (by simp)
        · intro hc; exact absurd hc (by simp)
      · constructor
        · intro _
          simp only [List.length_cons]
          omega
        · intro _; rfl

end Spf

/-! ## DKIM evaluation (`src/auth/dkim.rs`) -/

namespace Dkim

/-- `DkimWeakness` from `src/auth/dkim.rs`. -/
inductive DkimWeakness where
  | TestingFlag
deriving DecidableEq, Repr

/-- `DkimIssue` from `src/auth/dkim.rs`. -/
inductive DkimIssue where
  | InvalidVersion
  | MissingPublicKey
  | MultipleRecords (count : Nat)
deriving DecidableEq, Repr

/-- `DkimPolicyStatus` from `src/auth/dkim.rs`. -/
inductive DkimPolicyStatus where
  | NotRequested
  | Missing
  | Present (record : String) (testing : Bool)
  | Invalid (record : String) (issue : DkimIssue)
deriving DecidableEq, Repr

/-- `DkimSelectorStatus` from `src/auth/dkim.rs`. -/
inductive DkimSelectorStatus where
  | Missing (selector : String)
  | Invalid (selector : String) (records : List String) (issue : DkimIssue)
  | Weak (selector : String) (record : String) (weakness : DkimWeakness)
  | Compliant (selector : String) (record : String)
deriving DecidableEq, Repr

/-- `ParsedTags` from `src/auth/dkim.rs`. -/
structure ParsedTags where
  version : Option String
  public_key : Option String
  testing : Bool
deriving DecidableEq, Repr

/-- One tag of the `parse_tags` loop (`src/auth/dkim.rs` lines 190-208):
split on the first `=`, trim, lowercase the key, and update the state
(later tags overwrite earlier ones, as in the source). -/
def tag_step (st : ParsedTags) (part : String) : ParsedTags :=
  let trimmed := trim part
  if trimmed.isEmpty then st
  else
    let kv :=
      match split_once trimmed '=' with
      | some (k, v) => (ascii_lower (trim k), trim v)
      | none => (ascii_lower (trim trimmed), "")
    if kv.1 = "v" then { st with version := some kv.2 }
    else if kv.1 = "p" then { st with public_key := some kv.2 }
    else if kv.1 = "t" then
      { st with
        testing :=
          (split_char kv.2 ',').any (fun flag => eq_ignore_ascii_case (trim flag) "y") }
    else st

/-- `parse_tags` from `src/auth/dkim.rs`. -/
def parse_tags (record : String) : ParsedTags :=
  (split_char record ';').foldl tag_step ⟨none, none, false⟩

/-- The version test both status functions apply to a parsed record:
`v` tag present and ASCII-case-insensitively equal to `dkim1`. -/
def version_is_dkim1 (p : ParsedTags) : Bool :=
  match p.version with
  | some v => eq_ignore_ascii_case v "dkim1"
  | none => false

/-- The `relevant` list built by `policy_status`/`selector_status`
(`src/auth/dkim.rs` lines 64-79 and 116-131): trimmed records whose parsed
`v` tag is DKIM1, in input order and without deduplication. -/
def dkim_relevant (records : List String) : List (String × ParsedTags) :=
  (records.map trim).filterMap fun r =>
    let p := parse_tags r
    if version_is_dkim1 p then some (r, p) else none

/-- `policy_status` from `src/auth/dkim.rs`. -/
def policy_status (records : List String) : DkimPolicyStatus :=
  if records.isEmpty then DkimPolicyStatus.Missing
  else
    match dkim_relevant records with
    | [] => DkimPolicyStatus.Invalid ((records.map trim).headD "") DkimIssue.InvalidVersion
    | [(record, parsed)] => DkimPolicyStatus.Present record parsed.testing
    | (record, parsed) :: second :: rest =>
      DkimPolicyStatus.Invalid record
        (DkimIssue.MultipleRecords ((record, parsed) :: second :: rest).length)

/-- `selector_status` from `src/auth/dkim.rs`. -/
def selector_status (selector : String) (records : List String) : DkimSelectorStatus :=
  if records.isEmpty then DkimSelectorStatus.Missing selector
  else
    match dkim_relevant records with
    | [] =>
      DkimSelectorStatus.Invalid selector (records.map trim) DkimIssue.InvalidVersion
    | [(record, parsed)] =>
      if (parsed.public_key.getD "").isEmpty then
        DkimSelectorStatus.Invalid selector (records.map trim) DkimIssue.MissingPublicKey
      else if parsed.testing then
        DkimSelectorStatus.Weak selector record DkimWeakness.TestingFlag
      else DkimSelectorStatus.Compliant selector record
    | (record, parsed) :: second :: rest =>
      DkimSelectorStatus.Invalid selector (records.map trim)
        (DkimIssue.MultipleRecords ((record, parsed) :: second :: rest).length)

/-- C4 (counterexample): two identical `v=DKIM1` records make `policy_status`
report `MultipleRecords` with count 2, although deduplication would leave a
single record — the count is taken before any deduplication, refuting the
claim that it reflects the record list after dedup. -/
theorem dkim_duplicate_count_not_deduped :
    policy_status ["v=DKIM1; p=b", "v=DKIM1; p=b"] =
        DkimPolicyStatus.Invalid "v=DKIM1; p=b" (DkimIssue.MultipleRecords 2) ∧
      List.dedup ["v=DKIM1; p=b", "v=DKIM1; p=b"] = ["v=DKIM1; p=b"] := by
  constructor
  · decide
  · decide

/-- C4 (amended): when more than one trimmed record carries a DKIM1 `v` tag,
`policy_status` reports `Invalid`/`MultipleRecords` carrying the first such
record in input order (not sort order), and `selector_status` carries all
trimmed records; in both, the count is the number of DKIM1-versioned records
without deduplication. -/
theorem dkim_multiple_records_first_in_input_order (records : List String)
    (r : String) (p : ParsedTags) (rest : List (String × ParsedTags))
    (hrel : dkim_relevant records = (r, p) :: rest)
    (h2 : 2 ≤ (dkim_relevant records).length) :
    policy_status records =
        DkimPolicyStatus.Invalid r
          (DkimIssue.MultipleRecords (dkim_relevant records).length) ∧
      ∀ selector,
        selector_status selector records =
          DkimSelectorStatus.Invalid selector (records.map trim)
            (DkimIssue.MultipleRecords (dkim_relevant records).length) := by
  have hne : records ≠ [] := by
    intro h
    subst h
    simp [dkim_relevant] at hrel
  cases records with
  | nil => exact absurd rfl hne
  | cons a as =>
    rw [hrel] at h2 ⊢
    cases rest with
    | nil => simp at h2
    | cons q qs =>
      constructor
      · show policy_status (a :: as) = _
        unfold policy_status
        rw [hrel]
        rfl
      · intro selector
        show selector_status selector (a :: as) = _
        unfold selector_status
        rw [hrel]
        rfl

/-- C4 witness: the amended statement applied to a concrete pair of distinct
DKIM1 records, where the first record in input order is not the first in
sort order. -/
theorem dkim_multiple_records_witness :
    policy_status ["v=DKIM1; p=b", "v=DKIM1; p=a"] =
      DkimPolicyStatus.Invalid "v=DKIM1; p=b" (DkimIssue.MultipleRecords 2) :=
  (dkim_multiple_records_first_in_input_order
    ["v=DKIM1; p=b", "v=DKIM1; p=a"]
    "v=DKIM1; p=b" ⟨some "DKIM1", some "b", false⟩
    [("v=DKIM1; p=a", ⟨some "DKIM1", some "a", false⟩)]
    (by decide) (by decide)).1

end Dkim

/-! ## SMTP reply parsing (`src/smtp_verify/session.rs`) -/

namespace SmtpVerify

/-- `SmtpReply` from `src/smtp_verify/session.rs`: numeric status code and
the text of every line of the (possibly multi-line) reply. -/
structure SmtpReply where
  code : Nat
  lines : List String
deriving DecidableEq, Repr

/-- `SmtpReply::is_positive_completion` (`200..300`). -/
def SmtpReply.is_positive_completion (r : SmtpReply) : Bool :=
  200 ≤ r.code ∧ r.code < 300

/-- `SmtpReply::is_transient_failure` (`400..500`). -/
def SmtpReply.is_transient_failure (r : SmtpReply) : Bool :=
  400 ≤ r.code ∧ r.code < 500

/-- `SmtpReply::is_permanent_failure` (`500..600`). -/
def SmtpReply.is_permanent_failure (r : SmtpReply) : Bool :=
  500 ≤ r.code ∧ r.code < 600

/-- ASCII digit test used by Rust `u16::from_str`. -/
def is_ascii_digit (c : Char) : Bool :=
  48 ≤ c.toNat ∧ c.toNat ≤ 57

/-- The digit part of Rust `u16` parsing: one or more ASCII digits whose
value fits in `u16`. -/
def parse_u16_digits (digits : List Char) : Option Nat :=
  if digits.isEmpty then none
  else if digits.all is_ascii_digit then
    if digits.foldl (fun acc c => acc * 10 + (c.toNat - 48)) 0 ≤ 65535 then
      some (digits.foldl (fun acc c => acc * 10 + (c.toNat - 48)) 0)
    else none
  else none

/-- Rust `str::parse::<u16>()` on a character list: an optional leading `+`,
then one or more ASCII digits, with the value checked against `u16::MAX`. -/
def parse_u16_chars (l : List Char) : Option Nat :=
  match l with
  | '+' :: rest => parse_u16_digits rest
  | other => parse_u16_digits other

/-- The text pushed for one reply line (`read_reply` lines 159-163):
everything after the three digits and the separator. -/
def reply_text (line : String) : String :=
  if 4 < line.data.length then String.mk (line.data.drop 4) else ""

/-- `SmtpStream::read_reply` (`src/smtp_verify/session.rs` lines 138-173),
with the stream abstracted as the list of CRLF-stripped lines `read_line`
would deliver.  State: the code seen so far and the accumulated line texts;
the result carries the reply and the unconsumed lines.  Running out of lines
models `read_line`'s unexpected-EOF error. -/
def read_reply_core : Option Nat → List String → List String →
    Except String (SmtpReply × List String)
  | _, _, [] => Except.error "connection closed"
  | code?, acc, line :: rest =>
    if line.data.length < 3 then Except.error ("invalid reply: " ++ line)
    else
      match parse_u16_chars (line.data.take 3) with
      | none => Except.error ("invalid code in line: " ++ line)
      | some parsed =>
        match code? with
        | some existing =>
          if existing = parsed then
            if line.data.get? 3 = some '-' then
              read_reply_core (some existing) (acc ++ [reply_text line]) rest
            else Except.ok (⟨existing, acc ++ [reply_text line]⟩, rest)
          else
            Except.error
              ("inconsistent reply codes: " ++ toString existing ++ " vs " ++
                toString parsed)
        | none =>
          if line.data.get? 3 = some '-' then
            read_reply_core (some parsed) (acc ++ [reply_text line]) rest
          else Except.ok (⟨parsed, acc ++ [reply_text line]⟩, rest)

/-- `SmtpStream::read_reply` on a fresh reply (no code seen, no lines yet). -/
def read_reply (input : List String) : Except String (SmtpReply × List String) :=
  read_reply_core none [] input

/-- The digit fold of `parse_u16_chars` is bounded by `10 ^ length`. -/
theorem digit_fold_lt (l : List Char) :
    ∀ acc : Nat, l.all is_ascii_digit = true →
      l.foldl (fun acc c => acc * 10 + (c.toNat - 48)) acc < (acc + 1) * 10 ^ l.length := by
  induction l with
  | nil =>
    intro acc _
    simp only [List.foldl_nil, List.length_nil, pow_zero, Nat.mul_one]
    exact Nat.lt_succ_self acc
  | cons c cs ih =>
    intro acc hall
    simp only [List.all_cons, Bool.and_eq_true] at hall
    have hc : c.toNat - 48 ≤ 9 := by
      have := hall.1
      simp only [is_ascii_digit, decide_eq_true_eq] at this
      omega
    have step := ih (acc * 10 + (c.toNat - 48)) hall.2
    have hmono : (acc * 10 + (c.toNat - 48) + 1) * 10 ^ cs.length ≤
        (acc + 1) * 10 ^ (cs.length + 1) := by
      have h1 : acc * 10 + (c.toNat - 48) + 1 ≤ (acc + 1) * 10 := by omega
      calc (acc * 10 + (c.toNat - 48) + 1) * 10 ^ cs.length
          ≤ ((acc + 1) * 10) * 10 ^ cs.length :=
            Nat.mul_le_mul_right _ h1
        _ = (acc + 1) * 10 ^ (cs.length + 1) := by ring
    simp only [List.foldl_cons, List.length_cons]
    exact lt_of_lt_of_le step hmono

/-- A successfully parsed digit run is below `10 ^ length`. -/
theorem parse_u16_digits_lt (digits : List Char) (v : Nat)
    (h : parse_u16_digits digits = some v) : v < 10 ^ digits.length := by
  unfold parse_u16_digits at h
  split at h
  · exact absurd h (by simp)
  · split at h
    · split at h
      · have hv := Option.some.inj h
        subst hv
        have hb := digit_fold_lt digits 0 (by assumption)
        rw [Nat.zero_add, Nat.one_mul] at hb
        exact hb
      · exact absurd h (by simp)
    · exact absurd h (by simp)

/-- Any successfully parsed numeric prefix is below `10 ^ length`. -/
theorem parse_u16_chars_lt (l : List Char) (v : Nat)
    (h : parse_u16_chars l = some v) : v < 10 ^ l.length := by
  unfold parse_u16_chars at h
  split at h
  · next rest =>
    have := parse_u16_digits_lt rest v h
    calc v < 10 ^ rest.length := this
      _ ≤ 10 ^ ('+' :: rest).length :=
        Nat.pow_le_pow_right (by omega) (by simp)
  · exact parse_u16_digits_lt l v h

/-- Unfolding equation for `read_reply_core` on a first line. -/
theorem read_reply_core_cons_none (acc : List String) (line : String)
    (rest : List String) :
    read_reply_core none acc (line :: rest) =
      if line.data.length < 3 then Except.error ("invalid reply: " ++ line)
      else
        match parse_u16_chars (line.data.take 3) with
        | none => Except.error ("invalid code in line: " ++ line)
        | some parsed =>
          if line.data.get? 3 = some '-' then
            read_reply_core (some parsed) (acc ++ [reply_text line]) rest
          else Except.ok (⟨parsed, acc ++ [reply_text line]⟩, rest) := rfl

/-- Unfolding equation for `read_reply_core` on a continuation line. -/
theorem read_reply_core_cons_some (existing : Nat) (acc : List String)
    (line : String) (rest : List String) :
    read_reply_core (some existing) acc (line :: rest) =
      if line.data.length < 3 then Except.error ("invalid reply: " ++ line)
      else
        match parse_u16_chars (line.data.take 3) with
        | none => Except.error ("invalid code in line: " ++ line)
        | some parsed =>
          if existing = parsed then
            if line.data.get? 3 = some '-' then
              read_reply_core (some existing) (acc ++ [reply_text line]) rest
            else Except.ok (⟨existing, acc ++ [reply_text line]⟩, rest)
          else
            Except.error
              ("inconsistent reply codes: " ++ toString existing ++ " vs " ++
                toString parsed) := rfl

/-- Inversion for `read_reply_core`: a successful parse consumes a non-empty
prefix of the input, every consumed line is at least three characters long
and its three-character numeric prefix parses to the reply's code, and a
previously fixed code is the reply's code. -/
theorem read_reply_core_spec (input : List String) :
    ∀ (code? : Option Nat) (acc : List String) (reply : SmtpReply)
      (rest : List String),
      read_reply_core code? acc input = Except.ok (reply, rest) →
      (∀ c, code? = some c → reply.code = c) ∧
      ∃ consumed, consumed ≠ [] ∧ input = consumed ++ rest ∧
        ∀ line ∈ consumed, 3 ≤ line.data.length ∧
          parse_u16_chars (line.data.take 3) = some reply.code := by
  induction input with
  | nil =>
    intro code? acc reply rest h
    exact absurd h (by simp [read_reply_core])
  | cons line rest' ih =>
    intro code? acc reply rest h
    have hfinish :
        ∀ fixed : Nat,
          (Except.ok ((⟨fixed, acc ++ [reply_text line]⟩ : SmtpReply), rest') :
              Except String (SmtpReply × List String)) =
              Except.ok (reply, rest) →
          3 ≤ line.data.length →
          parse_u16_chars (line.data.take 3) = some fixed →
          (∀ c, code? = some c → fixed = c) →
          (∀ c, code? = some c → reply.code = c) ∧
          ∃ consumed, consumed ≠ [] ∧ line :: rest' = consumed ++ rest ∧
            ∀ l ∈ consumed, 3 ≤ l.data.length ∧
              parse_u16_chars (l.data.take 3) = some reply.code := by
      intro fixed hok hlen3 hp hfix
      injection hok with hpair
      injection hpair with hr hrest
      subst hrest
      refine ⟨fun c hc => by rw [← hr]; exact hfix c hc, [line], by simp,
        by simp, ?_⟩
      intro l hl
      rcases List.mem_cons.mp hl with hl | hl
      · subst hl
        exact ⟨hlen3, by rw [← hr]; exact hp⟩
      · cases hl
    have hcont :
        ∀ fixed : Nat,
          read_reply_core (some fixed) (acc ++ [reply_text line]) rest' =
              Except.ok (reply, rest) →
          3 ≤ line.data.length →
          parse_u16_chars (line.data.take 3) = some fixed →
          (∀ c, code? = some c → fixed = c) →
          (∀ c, code? = some c → reply.code = c) ∧
          ∃ consumed, consumed ≠ [] ∧ line :: rest' = consumed ++ rest ∧
            ∀ l ∈ consumed, 3 ≤ l.data.length ∧
              parse_u16_chars (l.data.take 3) = some reply.code := by
      intro fixed hrec hlen3 hp hfix
      obtain ⟨hcode, consumed, hne, heq, hall⟩ :=
        ih (some fixed) (acc ++ [reply_text line]) reply rest hrec
      have hrc : reply.code = fixed := hcode fixed rfl
      refine ⟨fun c hc => by rw [hrc]; exact hfix c hc, line :: consumed,
        by simp, by simp [heq], ?_⟩
      intro l hl
      rcases List.mem_cons.mp hl with hl | hl
      · subst hl
        exact ⟨hlen3, by rw [hrc]; exact hp⟩
      · exact hall l hl
    cases code? with
    | none =>
      rw [read_reply_core_cons_none] at h
      by_cases hlen : line.data.length < 3
      · rw [if_pos hlen] at h
        exact absurd h (by simp)
      · rw [if_neg hlen] at h
        have hlen3 : 3 ≤ line.data.length := by omega
        cases hp : parse_u16_chars (line.data.take 3) with
        | none => rw [hp] at h; exact absurd h (by simp)
        | some parsed =>
          rw [hp] at h
          split at h
          · next heq => exact absurd heq (by simp)
          · next p2 heq =>
            injection heq with heq2
            subst heq2
            by_cases hdash : line.data.get? 3 = some '-'
            · rw [if_pos hdash] at h
              exact hcont parsed h hlen3 hp (fun c hc => by cases hc)
            · rw [if_neg hdash] at h
              exact hfinish parsed h hlen3 hp (fun c hc => by cases hc)
    | some existing =>
      rw [read_reply_core_cons_some] at h
      by_cases hlen : line.data.length < 3
      · rw [if_pos hlen] at h
        exact absurd h (by simp)
      · rw [if_neg hlen] at h
        have hlen3 : 3 ≤ line.data.length := by omega
        cases hp : parse_u16_chars (line.data.take 3) with
        | none => rw [hp] at h; exact absurd h (by simp)
        | some parsed =>
          rw [hp] at h
          split at h
          · next heq => exact absurd heq (by simp)
          · next p2 heq =>
            injection heq with heq2
            subst heq2
            by_cases hex : existing = parsed
            · rw [if_pos hex] at h
              subst hex
              by_cases hdash : line.data.get? 3 = some '-'
              · rw [if_pos hdash] at h
                exact hcont existing h hlen3 hp
                  (fun c hc => Option.some.inj hc)
              · rw [if_neg hdash] at h
                exact hfinish existing h hlen3 hp
                  (fun c hc => Option.some.inj hc)
            · rw [if_neg hex] at h
              exact absurd h (by simp)

/-- C5 (counterexample): the reply parser accepts the line `000 ok`, yielding
a reply with code 0, which is outside the claimed range `[100, 599]` — the
parser never range-checks the three-digit code. -/
theorem read_reply_accepts_code_zero :
    read_reply ["000 ok"] = Except.ok (⟨0, ["ok"]⟩, []) ∧ ¬ (100 ≤ (0 : Nat)) := by
  constructor
  · rfl
  · omega

/-- C5 (amended): every `SmtpReply` returned by the reply parser has a code
in `[0, 999]` (the parser enforces no `[100, 599]` restriction), and all
lines of a multi-line reply carry the same numeric status code: each
consumed line's three-character prefix parses to the reply's code, so a
continuation line with a different code can never yield a reply. -/
theorem read_reply_code_bounded_and_consistent (input : List String)
    (reply : SmtpReply) (rest : List String)
    (h : read_reply input = Except.ok (reply, rest)) :
    reply.code ≤ 999 ∧
      ∃ consumed, consumed ≠ [] ∧ input = consumed ++ rest ∧
        ∀ line ∈ consumed,
          parse_u16_chars (line.data.take 3) = some reply.code := by
  obtain ⟨-, consumed, hne, heq, hall⟩ :=
    read_reply_core_spec input none [] reply rest h
  refine ⟨?_, consumed, hne, heq, fun l hl => (hall l hl).2⟩
  cases consumed with
  | nil => exact absurd rfl hne
  | cons l0 ls =>
    obtain ⟨hlen, hparse⟩ := hall l0 (List.mem_cons_self _ _)
    have hlt := parse_u16_chars_lt _ _ hparse
    have htake : (l0.data.take 3).length = 3 := by
      rw [List.length_take]
      omega
    rw [htake] at hlt
    omega

/-- C5 witness: the amended statement applied to a concrete two-line reply
whose lines share the code 250. -/
theorem read_reply_code_bounded_witness :
    (⟨250, ["first", "second"]⟩ : SmtpReply).code ≤ 999 := by
  have h :
      read_reply ["250-first", "250 second"] =
        Except.ok (⟨250, ["first", "second"]⟩, []) := by rfl
  exact (read_reply_code_bounded_and_consistent
    ["250-first", "250 second"] ⟨250, ["first", "second"]⟩ [] h).1

/-! ## SMTP probing (`src/smtp_verify/probe.rs`, `src/smtp_verify/util.rs`,
`src/smtp_verify/types.rs`) -/

/-- `Existence` from `src/smtp_verify/types.rs`. -/
inductive Existence where
  | Exists
  | DoesNotExist
  | CatchAll
  | Indeterminate (reason : String)
deriving DecidableEq, Repr

/-- `Existence::is_conclusive` from `src/smtp_verify/types.rs`. -/
def Existence.is_conclusive : Existence → Bool
  | Existence.Exists => true
  | Existence.DoesNotExist => true
  | _ => false

/-- `confidence_for` from `src/smtp_verify/util.rs`; the `f32` literals are
modelled as the exact rationals they denote in the source text. -/
def confidence_for : Existence → ℚ
  | Existence.Exists => 0.95
  | Existence.DoesNotExist => 0.95
  | Existence.CatchAll => 0.7
  | Existence.Indeterminate _ => 0.4

/-- `TargetExistence` from `src/smtp_verify/probe.rs`. -/
inductive TargetExistence where
  | Accepted
  | DoesNotExist
  | Indeterminate (reason : String)
deriving DecidableEq, Repr

/-- `is_permanent_no_mailbox` from `src/smtp_verify/probe.rs`
(`matches!(reply.code, 550 | 551 | 553)`). -/
def is_permanent_no_mailbox (reply : SmtpReply) : Bool :=
  reply.code = 550 ∨ reply.code = 551 ∨ reply.code = 553

/-- `classify_target` from `src/smtp_verify/probe.rs`. -/
def classify_target (reply : SmtpReply) : TargetExistence :=
  if reply.is_positive_completion then TargetExistence.Accepted
  else if is_permanent_no_mailbox reply then TargetExistence.DoesNotExist
  else if reply.code = 521 then
    TargetExistence.Indeterminate "521 host does not accept mail"
  else if reply.is_transient_failure then
    TargetExistence.Indeterminate ("temporary failure " ++ toString reply.code)
  else TargetExistence.Indeterminate ("unexpected response " ++ toString reply.code)

/-- One iteration of the catch-all loop of `probe_host`
(`src/smtp_verify/probe.rs` lines 221-234): an alias equal to the real
local-part is skipped without sending anything; otherwise the session's
reply (modelled by `serverReply`) bumps exactly one of
`(accepted_random, rejected_random, tempfail_random)`. -/
def catchall_step (local_part : String) (serverReply : String → SmtpReply)
    (counts : Nat × Nat × Nat) (al : String) : Nat × Nat × Nat :=
  if al = local_part then counts
  else
    let reply := serverReply al
    if reply.is_positive_completion then (counts.1 + 1, counts.2.1, counts.2.2)
    else if is_permanent_no_mailbox reply then (counts.1, counts.2.1 + 1, counts.2.2)
    else if reply.is_transient_failure then (counts.1, counts.2.1, counts.2.2 + 1)
    else counts

/-- The `(accepted_random, rejected_random, tempfail_random)` totals after
the catch-all loop. -/
def catchall_counts (local_part : String) (serverReply : String → SmtpReply)
    (catchall_locals : List String) : Nat × Nat × Nat :=
  catchall_locals.foldl (catchall_step local_part serverReply) (0, 0, 0)

/-- The verdict chain on the catch-all counters
(`src/smtp_verify/probe.rs` lines 239-247). -/
def catchall_verdict (counts : Nat × Nat × Nat) : Existence :=
  if 0 < counts.1 then Existence.CatchAll
  else if 0 < counts.2.1 ∧ counts.2.2 = 0 then Existence.Exists
  else if 0 < counts.2.2 then
    Existence.Indeterminate "temporary failure on catch-all probes"
  else Existence.Indeterminate "ambiguous catch-all probes"

/-- `probe_host` from the target `RCPT TO` classification onward
(`src/smtp_verify/probe.rs` lines 184-253).  The earlier stages (banner,
EHLO, STARTTLS, MAIL FROM) return early with `Indeterminate` verdicts and
never reach this code; `serverReply` models the session's reply to
`RCPT TO:<alias@domain>` for each alias actually sent. -/
def probe_host_after_target (local_part : String) (targetReply : SmtpReply)
    (catchall_locals : List String) (serverReply : String → SmtpReply) : Existence :=
  match classify_target targetReply with
  | TargetExistence.DoesNotExist => Existence.DoesNotExist
  | TargetExistence.Indeterminate reason => Existence.Indeterminate reason
  | TargetExistence.Accepted =>
    if catchall_locals.isEmpty then Existence.Indeterminate "catch-all probes disabled"
    else catchall_verdict (catchall_counts local_part serverReply catchall_locals)

/-- `HostReport` from `src/smtp_verify/probe.rs`. -/
structure HostReport where
  existence : Existence
  transcript : List String
deriving DecidableEq, Repr

/-- `SmtpProbeReport` from `src/smtp_verify/types.rs` (confidence as an
exact rational, see `confidence_for`). -/
structure SmtpProbeReport where
  result : Existence
  mx_tried : List String
  transcript : List String
  confidence : ℚ
deriving DecidableEq, Repr

/-- The host loop of `check_mailaddress_exists`
(`src/smtp_verify/probe.rs` lines 51-99), with each host's `probe_host`
outcome abstracted as an `Except` value (an `error` models a
`SmtpVerifyError`, whose display string is carried).  State: hosts still to
try, `mx_tried`, `transcripts`, `last_result`. -/
def check_loop :
    List (String × Except String HostReport) → List String → List String →
      Existence → Existence × List String × List String
  | [], mx_tried, transcripts, last_result => (last_result, mx_tried, transcripts)
  | (host, res) :: rest, mx_tried, transcripts, _last_result =>
    match res with
    | Except.ok report =>
      if report.existence.is_conclusive then
        (report.existence, mx_tried ++ [host], transcripts ++ report.transcript)
      else
        check_loop rest (mx_tried ++ [host]) (transcripts ++ report.transcript)
          report.existence
    | Except.error err =>
      check_loop rest (mx_tried ++ [host])
        (transcripts ++ ["[" ++ host ++ "] ! error: " ++ err])
        (Existence.Indeterminate err)

/-- `check_mailaddress_exists` from `src/smtp_verify/probe.rs` (lines
51-99), after resolution: the initial best-effort verdict is
`Indeterminate("no server responded")` and no host has been tried yet. -/
def check_mailaddress_exists (hosts : List (String × Except String HostReport)) :
    Existence × List String × List String :=
  check_loop hosts [] [] (Existence.Indeterminate "no server responded")

/-- The final `SmtpProbeReport` (`src/smtp_verify/probe.rs` lines 73-79 and
93-99): confidence is always computed from the returned verdict. -/
def probe_report (hosts : List (String × Except String HostReport)) : SmtpProbeReport :=
  match check_mailaddress_exists hosts with
  | (result, mx_tried, transcripts) =>
    ⟨result, mx_tried, transcripts, confidence_for result⟩

/-- The verdict a single host contributes when it is not conclusive:
the report's existence, or `Indeterminate` of the error's display. -/
def verdict_of (p : String × Except String HostReport) : Existence :=
  match p.2 with
  | Except.ok report => report.existence
  | Except.error err => Existence.Indeterminate err

/-- Whether a host outcome is an `Ok` report with a conclusive verdict
(`Exists` or `DoesNotExist`). -/
def ok_conclusive (p : String × Except String HostReport) : Bool :=
  match p.2 with
  | Except.ok report => report.existence.is_conclusive
  | Except.error _ => false

/-- A positive completion (2xx) is neither a no-mailbox rejection nor a
transient failure. -/
theorem pos_not_permanent_nor_transient (r : SmtpReply)
    (h : r.is_positive_completion = true) :
    is_permanent_no_mailbox r = false ∧ r.is_transient_failure = false := by
  simp only [SmtpReply.is_positive_completion, decide_eq_true_eq] at h
  constructor
  · simp only [is_permanent_no_mailbox, decide_eq_false_iff_not]
    omega
  · simp only [SmtpReply.is_transient_failure, decide_eq_false_iff_not]
    omega

/-- A no-mailbox rejection (550/551/553) is not a transient failure. -/
theorem permanent_not_transient (r : SmtpReply)
    (h : is_permanent_no_mailbox r = true) : r.is_transient_failure = false := by
  simp only [is_permanent_no_mailbox, decide_eq_true_eq] at h
  simp only [SmtpReply.is_transient_failure, decide_eq_false_iff_not]
  omega

/-- The catch-all counting loop computes exactly the three counts over the
aliases distinct from the real local-part: accepted on 2xx, rejected on
550/551/553, tempfail on 4xx. -/
theorem catchall_counts_spec (local_part : String) (serverReply : String → SmtpReply) :
    ∀ (aliases : List String) (c : Nat × Nat × Nat),
      aliases.foldl (catchall_step local_part serverReply) c =
        (c.1 + (aliases.filter (fun al => al ≠ local_part)).countP
            (fun al => (serverReply al).is_positive_completion),
          c.2.1 + (aliases.filter (fun al => al ≠ local_part)).countP
            (fun al => is_permanent_no_mailbox (serverReply al)),
          c.2.2 + (aliases.filter (fun al => al ≠ local_part)).countP
            (fun al => (serverReply al).is_transient_failure)) := by
  intro aliases
  induction aliases with
  | nil => intro c; simp
  | cons al rest ih =>
    intro c
    simp only [List.foldl_cons]
    by_cases hal : al = local_part
    · have hstep : catchall_step local_part serverReply c al = c := by
        simp [catchall_step, hal]
      rw [hstep, ih]
      simp [List.filter_cons, hal]
    · have hfilter :
          (al :: rest).filter (fun al => al ≠ local_part) =
            al :: rest.filter (fun al => al ≠ local_part) := by
        simp [List.filter_cons, hal]
      rw [hfilter]
      by_cases hpos : (serverReply al).is_positive_completion = true
      · have hstep : catchall_step local_part serverReply c al =
            (c.1 + 1, c.2.1, c.2.2) := by
          simp [catchall_step, hal, hpos]
        rw [hstep, ih]
        obtain ⟨hperm, htrans⟩ := pos_not_permanent_nor_transient _ hpos
        rw [List.countP_cons_of_pos _ _ (by simpa using hpos),
          List.countP_cons_of_neg _ _ (by simp [hperm]),
          List.countP_cons_of_neg _ _ (by simp [htrans])]
        dsimp only
        rw [Prod.mk.injEq, Prod.mk.injEq]
        refine ⟨by omega, by omega, by omega⟩
      · by_cases hperm : is_permanent_no_mailbox (serverReply al) = true
        · have hstep : catchall_step local_part serverReply c al =
              (c.1, c.2.1 + 1, c.2.2) := by
            simp [catchall_step, hal, hpos, hperm]
          rw [hstep, ih]
          have htrans := permanent_not_transient _ hperm
          rw [List.countP_cons_of_neg _ _ (by simp [hpos]),
            List.countP_cons_of_pos _ _ (by simpa using hperm),
            List.countP_cons_of_neg _ _ (by simp [htrans])]
          dsimp only
          rw [Prod.mk.injEq, Prod.mk.injEq]
          refine ⟨by omega, by omega, by omega⟩
        · by_cases htrans : (serverReply al).is_transient_failure = true
          · have hstep : catchall_step local_part serverReply c al =
                (c.1, c.2.1, c.2.2 + 1) := by
              simp [catchall_step, hal, hpos, hperm, htrans]
            rw [hstep, ih]
            rw [List.countP_cons_of_neg _ _ (by simp [hpos]),
              List.countP_cons_of_neg _ _ (by simp [hperm]),
              List.countP_cons_of_pos _ _ (by simpa using htrans)]
            dsimp only
            rw [Prod.mk.injEq, Prod.mk.injEq]
            refine ⟨by omega, by omega, by omega⟩
          · have hstep : catchall_step local_part serverReply c al = c := by
              simp [catchall_step, hal, hpos, hperm, htrans]
            rw [hstep, ih]
            rw [List.countP_cons_of_neg _ _ (by simp [hpos]),
              List.countP_cons_of_neg _ _ (by simp [hperm]),
              List.countP_cons_of_neg _ _ (by simp [htrans])]

/-- Unfolding of `probe_host_after_target` when the target was accepted. -/
theorem probe_host_after_target_accepted (local_part : String)
    (targetReply : SmtpReply) (catchall_locals : List String)
    (serverReply : String → SmtpReply)
    (h : classify_target targetReply = TargetExistence.Accepted) :
    probe_host_after_target local_part targetReply catchall_locals serverReply =
      if catchall_locals.isEmpty then
        Existence.Indeterminate "catch-all probes disabled"
      else catchall_verdict (catchall_counts local_part serverReply catchall_locals) := by
  unfold probe_host_after_target
  rw [h]

/-- C7: with the target `RCPT TO` accepted and at least one catch-all alias
configured, the host verdict is determined from the random-alias replies —
aliases equal to the real local-part are skipped, `accepted_random` counts
2xx, `rejected_random` counts only 550/551/553, `tempfail_random` counts
4xx — by the chain CatchAll / Exists / temporary-failure / ambiguous; and
confidence for `CatchAll` is 0.70. -/
theorem probe_catchall_verdict_correct (local_part : String)
    (targetReply : SmtpReply) (aliases : List String)
    (serverReply : String → SmtpReply)
    (ht : classify_target targetReply = TargetExistence.Accepted)
    (hne : aliases ≠ []) :
    probe_host_after_target local_part targetReply aliases serverReply =
      (let considered := aliases.filter (fun al => al ≠ local_part)
       let accepted_random :=
         considered.countP (fun al => (serverReply al).is_positive_completion)
       let rejected_random :=
         considered.countP (fun al => is_permanent_no_mailbox (serverReply al))
       let tempfail_random :=
         considered.countP (fun al => (serverReply al).is_transient_failure)
       if 0 < accepted_random then Existence.CatchAll
       else if 0 < rejected_random ∧ tempfail_random = 0 then Existence.Exists
       else if 0 < tempfail_random then
         Existence.Indeterminate "temporary failure on catch-all probes"
       else Existence.Indeterminate "ambiguous catch-all probes") ∧
      confidence_for Existence.CatchAll = 0.70 := by
  constructor
  · rw [probe_host_after_target_accepted local_part targetReply aliases serverReply ht]
    have hempty : aliases.isEmpty = false := by
      cases aliases with
      | nil => exact absurd rfl hne
      | cons a as => rfl
    rw [hempty]
    show catchall_verdict (catchall_counts local_part serverReply aliases) = _
    unfold catchall_counts
    rw [catchall_counts_spec]
    simp only [Nat.zero_add]
    rfl
  · norm_num [confidence_for]

/-- C7 witness: the concrete scenario of the claim — the target accepted
with 250 and one random alias (distinct from the real local) also answered
250 — yields `CatchAll`, and its confidence is 0.70. -/
theorem probe_catchall_verdict_witness :
    probe_host_after_target "user" ⟨250, ["ok"]⟩ ["zzzqqq"]
        (fun _ => ⟨250, ["ok"]⟩) = Existence.CatchAll ∧
      confidence_for Existence.CatchAll = 0.70 := by
  have h := probe_catchall_verdict_correct "user" ⟨250, ["ok"]⟩ ["zzzqqq"]
    (fun _ => ⟨250, ["ok"]⟩) (by decide) (by simp)
  refine ⟨?_, h.2⟩
  rw [h.1]
  decide

/-- C10: when the catch-all alias list is empty, an accepted target yields
`Indeterminate("catch-all probes disabled")`, and no target reply whatsoever
can make the host verdict `Exists`. -/
theorem probe_accepted_no_probes_indeterminate (local_part : String)
    (serverReply : String → SmtpReply) :
    (∀ targetReply : SmtpReply,
        classify_target targetReply = TargetExistence.Accepted →
        probe_host_after_target local_part targetReply [] serverReply =
          Existence.Indeterminate "catch-all probes disabled") ∧
    ∀ targetReply : SmtpReply,
      probe_host_after_target local_part targetReply [] serverReply ≠
        Existence.Exists := by
  constructor
  · intro tr h
    rw [probe_host_after_target_accepted local_part tr [] serverReply h]
    rfl
  · intro tr
    unfold probe_host_after_target
    cases h : classify_target tr <;> simp

/-- C10 witness: a concrete accepted target with no catch-all aliases. -/
theorem probe_accepted_no_probes_witness :
    probe_host_after_target "user" ⟨250, ["ok"]⟩ [] (fun _ => ⟨550, []⟩) =
      Existence.Indeterminate "catch-all probes disabled" :=
  (probe_accepted_no_probes_indeterminate "user" (fun _ => ⟨550, []⟩)).1
    ⟨250, ["ok"]⟩ (by decide)

/-- When no host is conclusive, the loop tries every host and the final
verdict is the last host's contribution (or the initial best-effort verdict
on an empty host list). -/
theorem check_loop_no_conclusive :
    ∀ (hosts : List (String × Except String HostReport)) (mx ts : List String)
      (last : Existence),
      (∀ p ∈ hosts, ok_conclusive p = false) →
      (check_loop hosts mx ts last).2.1 = mx ++ hosts.map Prod.fst ∧
      (check_loop hosts mx ts last).1 =
        ((hosts.getLast?).map verdict_of).getD last := by
  intro hosts
  induction hosts with
  | nil =>
    intro mx ts last _
    simp [check_loop]
  | cons p rest ih =>
    intro mx ts last hall
    obtain ⟨host, res⟩ := p
    have hp := hall (host, res) (List.mem_cons_self _ _)
    cases res with
    | ok report =>
      have hnc : report.existence.is_conclusive = false := by
        simpa [ok_conclusive] using hp
      show ((check_loop ((host, Except.ok report) :: rest) mx ts last).2.1 = _) ∧ _
      simp only [check_loop]
      rw [if_neg (by simp [hnc])]
      obtain ⟨h1, h2⟩ := ih (mx ++ [host]) (ts ++ report.transcript)
        report.existence (fun q hq => hall q (List.mem_cons_of_mem _ hq))
      constructor
      · rw [h1]; simp
      · rw [h2]
        cases rest with
        | nil => simp [verdict_of]
        | cons q qs =>
          rw [List.getLast?_cons_cons]
          obtain ⟨x, hx⟩ := Option.isSome_iff_exists.mp
            (by simp : ((q :: qs).getLast?).isSome = true)
          rw [hx]
          simp
    | error err =>
      simp only [check_loop]
      obtain ⟨h1, h2⟩ := ih (mx ++ [host])
        (ts ++ ["[" ++ host ++ "] ! error: " ++ err])
        (Existence.Indeterminate err)
        (fun q hq => hall q (List.mem_cons_of_mem _ hq))
      constructor
      · rw [h1]; simp
      · rw [h2]
        cases rest with
        | nil => simp [verdict_of]
        | cons q qs =>
          rw [List.getLast?_cons_cons]
          obtain ⟨x, hx⟩ := Option.isSome_iff_exists.mp
            (by simp : ((q :: qs).getLast?).isSome = true)
          rw [hx]
          simp

/-- The first conclusive host short-circuits the loop: its verdict is
returned and only the hosts up to and including it are tried. -/
theorem check_loop_first_conclusive :
    ∀ (pre : List (String × Except String HostReport)) (mx ts : List String)
      (last : Existence) (host : String) (report : HostReport)
      (post : List (String × Except String HostReport)),
      report.existence.is_conclusive = true →
      (∀ p ∈ pre, ok_conclusive p = false) →
      (check_loop (pre ++ (host, Except.ok report) :: post) mx ts last).1 =
          report.existence ∧
        (check_loop (pre ++ (host, Except.ok report) :: post) mx ts last).2.1 =
          mx ++ pre.map Prod.fst ++ [host] := by
  intro pre
  induction pre with
  | nil =>
    intro mx ts last host report post hc _
    simp only [List.nil_append, check_loop]
    rw [if_pos (by simp [hc])]
    constructor <;> simp
  | cons p rest ih =>
    intro mx ts last host report post hc hall
    obtain ⟨h0, r0⟩ := p
    have hp := hall (h0, r0) (List.mem_cons_self _ _)
    cases r0 with
    | ok rep =>
      have hnc : rep.existence.is_conclusive = false := by
        simpa [ok_conclusive] using hp
      rw [List.cons_append]
      show ((check_loop ((h0, Except.ok rep) :: (rest ++ (host, Except.ok report) :: post)) mx ts last).1 = _) ∧ _
      simp only [check_loop]
      rw [if_neg (by simp [hnc])]
      obtain ⟨h1, h2⟩ := ih (mx ++ [h0]) (ts ++ rep.transcript) rep.existence
        host report post hc (fun q hq => hall q (List.mem_cons_of_mem _ hq))
      exact ⟨h1, by rw [h2]; simp⟩
    | error err =>
      rw [List.cons_append]
      show ((check_loop ((h0, Except.error err) :: (rest ++ (host, Except.ok report) :: post)) mx ts last).1 = _) ∧ _
      simp only [check_loop]
      obtain ⟨h1, h2⟩ := ih (mx ++ [h0])
        (ts ++ ["[" ++ h0 ++ "] ! error: " ++ err])
        (Existence.Indeterminate err) host report post hc
        (fun q hq => hall q (List.mem_cons_of_mem _ hq))
      exact ⟨h1, by rw [h2]; simp⟩

/-- C2 (counterexample): contrary to the claim, an earlier host's `CatchAll`
is NOT kept in preference to a later host's `Indeterminate` — `last_result`
is overwritten by every non-conclusive host result, so the later
`Indeterminate` wins. -/
theorem check_later_indeterminate_overwrites_catchall :
    (check_mailaddress_exists
        [("mx1", Except.ok ⟨Existence.CatchAll, []⟩),
          ("mx2", Except.ok ⟨Existence.Indeterminate "greylisted", []⟩)]).1 =
        Existence.Indeterminate "greylisted" ∧
      Existence.Indeterminate "greylisted" ≠ Existence.CatchAll := by
  constructor
  · rfl
  · simp

/-- C2 (amended): the first host whose probe yields `Exists` or
`DoesNotExist` determines the result immediately (`mx_tried` then lists
exactly the hosts up to and including it); otherwise every host is tried
and the returned verdict is the LAST host's contribution — `Indeterminate`
included, with a probe error contributing `Indeterminate` of its message —
defaulting to `Indeterminate("no server responded")` for an empty host
list. -/
theorem check_first_conclusive_wins_else_last
    (hosts : List (String × Except String HostReport)) :
    (∀ pre host report post,
        hosts = pre ++ (host, Except.ok report) :: post →
        report.existence.is_conclusive = true →
        (∀ p ∈ pre, ok_conclusive p = false) →
        (check_mailaddress_exists hosts).1 = report.existence ∧
          (check_mailaddress_exists hosts).2.1 = pre.map Prod.fst ++ [host]) ∧
      ((∀ p ∈ hosts, ok_conclusive p = false) →
        (check_mailaddress_exists hosts).2.1 = hosts.map Prod.fst ∧
          (check_mailaddress_exists hosts).1 =
            ((hosts.getLast?).map verdict_of).getD
              (Existence.Indeterminate "no server responded")) := by
  constructor
  · intro pre host report post heq hc hall
    subst heq
    have h := check_loop_first_conclusive pre [] []
      (Existence.Indeterminate "no server responded") host report post hc hall
    unfold check_mailaddress_exists
    exact ⟨h.1, by rw [h.2]; simp⟩
  · intro hall
    have h := check_loop_no_conclusive hosts [] []
      (Existence.Indeterminate "no server responded") hall
    unfold check_mailaddress_exists
    exact ⟨by rw [h.1]; simp, h.2⟩

/-- C2 witness: a single conclusive host — the result is its verdict and
`mx_tried` is exactly that host. -/
theorem check_first_conclusive_witness :
    (check_mailaddress_exists [("mx1", Except.ok ⟨Existence.DoesNotExist, []⟩)]).1 =
        Existence.DoesNotExist ∧
      (check_mailaddress_exists
          [("mx1", Except.ok ⟨Existence.DoesNotExist, []⟩)]).2.1 = ["mx1"] := by
  have h := (check_first_conclusive_wins_else_last
      [("mx1", Except.ok ⟨Existence.DoesNotExist, []⟩)]).1
    [] "mx1" ⟨Existence.DoesNotExist, []⟩ [] (by simp) (by decide) (by simp)
  exact ⟨h.1, by rw [h.2]; simp⟩

end SmtpVerify

/-! ## Deliverability aggregation (`src/mx/deliverability/mod.rs`,
`src/mx/deliverability/types.rs`) -/

namespace Deliverability

/-- `AttemptStage` from `src/mx/deliverability/types.rs`. -/
inductive AttemptStage where
  | Connect
  | Greeting
  | Ehlo
  | MailFrom
  | Vrfy
  | RcptTo
  | Rset
  | Quit
deriving DecidableEq, Repr

/-- `VerificationMethod` from `src/mx/deliverability/types.rs`. -/
inductive VerificationMethod where
  | Vrfy
  | RcptTo
deriving DecidableEq, Repr

/-- `SmtpReply` from `src/mx/deliverability/types.rs` (code and joined
message text). -/
structure SmtpReply where
  code : Nat
  message : String
deriving DecidableEq, Repr

/-- `SmtpEvent` from `src/mx/deliverability/types.rs`. -/
inductive SmtpEvent where
  | Sent (stage : AttemptStage) (command : String)
  | Received (stage : AttemptStage) (reply : SmtpReply)
  | Error (stage : AttemptStage) (message : String)
deriving DecidableEq, Repr

/-- `AttemptOutcome` from `src/mx/deliverability/types.rs`. -/
inductive AttemptOutcome where
  | Accepted (method : VerificationMethod) (reply : SmtpReply)
  | Rejected (method : VerificationMethod) (reply : SmtpReply)
  | TemporaryFailure (method : VerificationMethod) (reply : SmtpReply)
  | Unreachable (message : String)
  | ProtocolError (message : String)
  | NoVerification (message : String)
deriving DecidableEq, Repr

/-- `ServerAttempt` from `src/mx/deliverability/types.rs`. -/
structure ServerAttempt where
  exchange : String
  address : Option String
  events : List SmtpEvent
  outcome : AttemptOutcome
deriving DecidableEq, Repr

/-- `MailboxStatus` from `src/mx/deliverability/types.rs`. -/
inductive MailboxStatus where
  | Deliverable
  | Rejected (code : Nat) (message : String)
  | TemporaryFailure (code : Nat) (message : String)
  | NoMailServer
  | Unreachable
  | Unverified
deriving DecidableEq, Repr

/-- The `matches!(outcome, Accepted { .. })` test of `aggregate_status`
(also `AttemptOutcome::is_success`). -/
def AttemptOutcome.isAccepted : AttemptOutcome → Bool
  | AttemptOutcome.Accepted _ _ => true
  | _ => false

/-- Discriminator for the `Rejected` variant. -/
def AttemptOutcome.isRejected : AttemptOutcome → Bool
  | AttemptOutcome.Rejected _ _ => true
  | _ => false

/-- Discriminator for the `TemporaryFailure` variant. -/
def AttemptOutcome.isTemporaryFailure : AttemptOutcome → Bool
  | AttemptOutcome.TemporaryFailure _ _ => true
  | _ => false

/-- The `matches!(outcome, Unreachable { .. })` test of `aggregate_status`. -/
def AttemptOutcome.isUnreachable : AttemptOutcome → Bool
  | AttemptOutcome.Unreachable _ => true
  | _ => false

/-- The `find_map` matcher extracting a `Rejected` reply
(`aggregate_status` lines 462-465). -/
def rejected_reply : AttemptOutcome → Option SmtpReply
  | AttemptOutcome.Rejected _ reply => some reply
  | _ => none

/-- The `find_map` matcher extracting a `TemporaryFailure` reply
(`aggregate_status` lines 472-475). -/
def temporary_reply : AttemptOutcome → Option SmtpReply
  | AttemptOutcome.TemporaryFailure _ reply => some reply
  | _ => none

/-- `aggregate_status` from `src/mx/deliverability/mod.rs` (lines 454-490). -/
def aggregate_status (attempts : List ServerAttempt) : MailboxStatus :=
  if attempts.any (fun a => a.outcome.isAccepted) then MailboxStatus.Deliverable
  else
    match attempts.findSome? (fun a => rejected_reply a.outcome) with
    | some rejected => MailboxStatus.Rejected rejected.code rejected.message
    | none =>
      match attempts.findSome? (fun a => temporary_reply a.outcome) with
      | some temp => MailboxStatus.TemporaryFailure temp.code temp.message
      | none =>
        if attempts.all (fun a => a.outcome.isUnreachable) then
          MailboxStatus.Unreachable
        else MailboxStatus.Unverified

/-- A non-`Rejected` outcome contributes no rejected reply. -/
theorem rejected_reply_none (o : AttemptOutcome) (h : o.isRejected = false) :
    rejected_reply o = none := by
  cases o <;> simp_all [AttemptOutcome.isRejected, rejected_reply]

/-- A non-`TemporaryFailure` outcome contributes no temporary reply. -/
theorem temporary_reply_none (o : AttemptOutcome)
    (h : o.isTemporaryFailure = false) : temporary_reply o = none := by
  cases o <;> simp_all [AttemptOutcome.isTemporaryFailure, temporary_reply]

/-- `findSome?` over a list where the matcher never fires. -/
theorem findSome?_none_of_all {α β : Type} (f : α → Option β) :
    ∀ l : List α, (∀ a ∈ l, f a = none) → l.findSome? f = none := by
  intro l
  induction l with
  | nil => intro _; rfl
  | cons a rest ih =>
    intro hall
    rw [List.findSome?_cons, hall a (List.mem_cons_self _ _)]
    exact ih (fun b hb => hall b (List.mem_cons_of_mem _ hb))

/-- `findSome?` finds the first element on which the matcher fires. -/
theorem findSome?_first {α β : Type} (f : α → Option β) :
    ∀ (pre : List α) (a : α) (post : List α) (r : β),
      (∀ b ∈ pre, f b = none) → f a = some r →
      (pre ++ a :: post).findSome? f = some r := by
  intro pre
  induction pre with
  | nil =>
    intro a post r _ ha
    rw [List.nil_append, List.findSome?_cons, ha]
  | cons b rest ih =>
    intro a post r hall ha
    rw [List.cons_append, List.findSome?_cons, hall b (List.mem_cons_self _ _)]
    exact ih a post r (fun q hq => hall q (List.mem_cons_of_mem _ hq)) ha

/-- C9: verdict precedence of `aggregate_status` — any `Accepted` attempt
gives `Deliverable`; else the first `Rejected` attempt's reply code and
message are carried into `Rejected`; else the first `TemporaryFailure`
reply is carried; else `Unreachable` when every attempt is unreachable;
else `Unverified`. -/
theorem aggregate_status_precedence (attempts : List ServerAttempt)
    (_hne : attempts ≠ []) :
    ((∃ a ∈ attempts, a.outcome.isAccepted = true) →
        aggregate_status attempts = MailboxStatus.Deliverable) ∧
      (∀ pre a post m r, attempts = pre ++ a :: post →
        a.outcome = AttemptOutcome.Rejected m r →
        (∀ b ∈ pre, b.outcome.isRejected = false) →
        (∀ b ∈ attempts, b.outcome.isAccepted = false) →
        aggregate_status attempts = MailboxStatus.Rejected r.code r.message) ∧
      (∀ pre a post m r, attempts = pre ++ a :: post →
        a.outcome = AttemptOutcome.TemporaryFailure m r →
        (∀ b ∈ pre, b.outcome.isTemporaryFailure = false) →
        (∀ b ∈ attempts, b.outcome.isAccepted = false) →
        (∀ b ∈ attempts, b.outcome.isRejected = false) →
        aggregate_status attempts =
          MailboxStatus.TemporaryFailure r.code r.message) ∧
      ((∀ a ∈ attempts, a.outcome.isUnreachable = true) →
        aggregate_status attempts = MailboxStatus.Unreachable) ∧
      (((∀ b ∈ attempts, b.outcome.isAccepted = false) ∧
          (∀ b ∈ attempts, b.outcome.isRejected = false) ∧
          (∀ b ∈ attempts, b.outcome.isTemporaryFailure = false) ∧
          ∃ b ∈ attempts, b.outcome.isUnreachable = false) →
        aggregate_status attempts = MailboxStatus.Unverified) := by
  refine ⟨?_, ?_, ?_, ?_, ?_⟩
  · intro hacc
    unfold aggregate_status
    rw [if_pos (List.any_eq_true.mpr (by
      obtain ⟨a, ha, hacc⟩ := hacc
      exact ⟨a, ha, hacc⟩))]
  · intro pre a post m r heq hout hpre hnoacc
    unfold aggregate_status
    rw [if_neg (by
      intro hany
      obtain ⟨b, hb, hbacc⟩ := List.any_eq_true.mp hany
      rw [hnoacc b hb] at hbacc
      exact Bool.false_ne_true hbacc)]
    rw [heq, findSome?_first _ pre a post r
      (fun b hb => rejected_reply_none _ (hpre b hb))
      (by rw [hout]; rfl)]
  · intro pre a post m r heq hout hpre hnoacc hnorej
    unfold aggregate_status
    rw [if_neg (by
      intro hany
      obtain ⟨b, hb, hbacc⟩ := List.any_eq_true.mp hany
      rw [hnoacc b hb] at hbacc
      exact Bool.false_ne_true hbacc)]
    rw [findSome?_none_of_all _ attempts
      (fun b hb => rejected_reply_none _ (hnorej b hb))]
    rw [heq, findSome?_first _ pre a post r
      (fun b hb => temporary_reply_none _ (hpre b hb))
      (by rw [hout]; rfl)]
  · intro hunr
    have hnoacc : ∀ b ∈ attempts, b.outcome.isAccepted = false := by
      intro b hb
      have := hunr b hb
      cases hout : b.outcome <;> simp_all [AttemptOutcome.isUnreachable,
        AttemptOutcome.isAccepted]
    have hnorej : ∀ b ∈ attempts, b.outcome.isRejected = false := by
      intro b hb
      have := hunr b hb
      cases hout : b.outcome <;> simp_all [AttemptOutcome.isUnreachable,
        AttemptOutcome.isRejected]
    have hnotmp : ∀ b ∈ attempts, b.outcome.isTemporaryFailure = false := by
      intro b hb
      have := hunr b hb
      cases hout : b.outcome <;> simp_all [AttemptOutcome.isUnreachable,
        AttemptOutcome.isTemporaryFailure]
    unfold aggregate_status
    rw [if_neg (by
      intro hany
      obtain ⟨b, hb, hbacc⟩ := List.any_eq_true.mp hany
      rw [hnoacc b hb] at hbacc
      exact Bool.false_ne_true hbacc)]
    rw [findSome?_none_of_all _ attempts
      (fun b hb => rejected_reply_none _ (hnorej b hb))]
    rw [findSome?_none_of_all _ attempts
      (fun b hb => temporary_reply_none _ (hnotmp b hb))]
    rw [if_pos (List.all_eq_true.mpr hunr)]
  · intro ⟨hnoacc, hnorej, hnotmp, b0, hb0, hb0unr⟩
    unfold aggregate_status
    rw [if_neg (by
      intro hany
      obtain ⟨b, hb, hbacc⟩ := List.any_eq_true.mp hany
      rw [hnoacc b hb] at hbacc
      exact Bool.false_ne_true hbacc)]
    rw [findSome?_none_of_all _ attempts
      (fun b hb => rejected_reply_none _ (hnorej b hb))]
    rw [findSome?_none_of_all _ attempts
      (fun b hb => temporary_reply_none _ (hnotmp b hb))]
    rw [if_neg (by
      intro hall
      have := List.all_eq_true.mp hall b0 hb0
      rw [hb0unr] at this
      exact Bool.false_ne_true this)]

/-- C9 witness: a single accepted attempt aggregates to `Deliverable`. -/
theorem aggregate_status_witness :
    aggregate_status
        [⟨"mx1.example.com", none, [],
          AttemptOutcome.Accepted VerificationMethod.RcptTo ⟨250, "ok"⟩⟩] =
      MailboxStatus.Deliverable :=
  (aggregate_status_precedence
      [⟨"mx1.example.com", none, [],
        AttemptOutcome.Accepted VerificationMethod.RcptTo ⟨250, "ok"⟩⟩]
      (by simp)).1
    ⟨_, List.mem_cons_self _ _, rfl⟩

end Deliverability

/-! ## SpecCharacter analysis (`src/validator/spec.rs`, `src/validator/types.rs`) -/

namespace Validator

/-- `SpecSegment` from `src/validator/types.rs`. -/
inductive SpecSegment where
  | Local
  | Domain
  | Label (name : String)
deriving DecidableEq, Repr

/-- `SpecClass` from `src/validator/types.rs`. -/
inductive SpecClass where
  | Diacritic
  | Confusable
  | MixedScript
deriving DecidableEq, Repr

/-- `SpecFinding` from `src/validator/types.rs` (the source field `class` is
a Lean keyword and is rendered `cls`). -/
structure SpecFinding where
  segment : SpecSegment
  codepoint : Char
  cls : SpecClass
  note : String
deriving DecidableEq, Repr

/-- `SpecCharacters` from `src/validator/types.rs`. -/
structure SpecCharacters where
  has_confusables : Bool
  has_diacritics : Bool
  has_mixed_scripts : Bool
  details : List SpecFinding
  normalized_ascii_hint : Option String
deriving DecidableEq, Repr

/-- `SpecCharacters::default()`. -/
def SpecCharacters.default : SpecCharacters := ⟨false, false, false, [], none⟩

/-- `SpecOptions` from `src/validator/types.rs`. -/
structure SpecOptions where
  detect_diacritics : Bool
  detect_confusables : Bool
  detect_mixed_scripts : Bool
  ascii_hint : Bool
  allowlist_labels : List String
  domain_confusable_reason : Option String
  domain_mixed_scripts_reason : Option String
  confusable_tld_warnings : List (String × String)
  use_fr_hint_extensions : Bool
deriving DecidableEq, Repr

/-- `SpecOptions::standard()` (= `Default::default()`). -/
def SpecOptions.standard : SpecOptions :=
  ⟨true, true, true, true, [], none, none, [], false⟩

/-- `SpecOptions::strict()`. -/
def SpecOptions.strict : SpecOptions :=
  { SpecOptions.standard with
    domain_confusable_reason := some "domain label has confusable non-latin" }

/-- `SpecOptions::fr_fraud()`. -/
def SpecOptions.fr_fraud : SpecOptions :=
  { SpecOptions.standard with
    use_fr_hint_extensions := true
    domain_confusable_reason :=
      some "fr-fraud profile: domain label has confusable non-latin characters"
    domain_mixed_scripts_reason :=
      some "fr-fraud profile: domain uses mixed Unicode scripts"
    confusable_tld_warnings :=
      [("fr", "fr-fraud profile: .fr domain with confusable characters detected"),
        ("gouv.fr",
          "fr-fraud profile: .gouv.fr domain with confusable characters detected")] }

/-- `DIACRITIC_MAP` from `src/validator/spec.rs` as an entry list. -/
def DIACRITIC_ENTRIES : List (Char × String) :=
  [('à', "a"), ('á', "a"), ('â', "a"), ('ä', "a"), ('ã', "a"), ('å', "a"),
    ('À', "A"), ('Á', "A"), ('Â', "A"), ('Ä', "A"), ('Ã', "A"), ('Å', "A"),
    ('ç', "c"), ('Ç', "C"),
    ('è', "e"), ('é', "e"), ('ê', "e"), ('ë', "e"),
    ('È', "E"), ('É', "E"), ('Ê', "E"), ('Ë', "E"),
    ('ì', "i"), ('í', "i"), ('î', "i"), ('ï', "i"),
    ('Ì', "I"), ('Í', "I"), ('Î', "I"), ('Ï', "I"),
    ('ñ', "n"), ('Ñ', "N"),
    ('ò', "o"), ('ó', "o"), ('ô', "o"), ('ö', "o"), ('õ', "o"),
    ('Ò', "O"), ('Ó', "O"), ('Ô', "O"), ('Ö', "O"), ('Õ', "O"),
    ('ù', "u"), ('ú', "u"), ('û', "u"), ('ü', "u"),
    ('Ù', "U"), ('Ú', "U"), ('Û', "U"), ('Ü', "U"),
    ('ÿ', "y"), ('Ÿ', "Y"),
    ('œ', "oe"), ('Œ', "OE"),
    ('æ', "ae"), ('Æ', "AE")]

/-- `DIACRITIC_MAP` lookup. -/
def DIACRITIC_MAP (c : Char) : Option String :=
  DIACRITIC_ENTRIES.lookup c

/-- `FR_HINT_EXTRA_MAP` from `src/validator/spec.rs` as an entry list. -/
def FR_HINT_EXTRA_ENTRIES : List (Char × String) :=
  [('«', "\""), ('»', "\""), ('\u201C', "\""), ('\u201D', "\""),
    ('\u2018', "\x27"), ('\u2019', "\x27"),
    ('\u2013', "-"), ('\u2014', "-"), ('\u2011', "-")]

/-- `FR_HINT_EXTRA_MAP` lookup. -/
def FR_HINT_EXTRA_MAP (c : Char) : Option String :=
  FR_HINT_EXTRA_ENTRIES.lookup c

/-- `CONFUSABLE_MAP` from `src/validator/spec.rs` as an entry list:
first the Cyrillic entries, then the Greek (upper case focus) entries. -/
def CONFUSABLE_ENTRIES : List (Char × String) :=
  [('а', "a"), ('А', "A"), ('е', "e"), ('Е', "E"), ('о', "o"), ('О', "O"),
    ('р', "p"), ('Р', "P"), ('с', "c"), ('С', "C"), ('у', "y"), ('У', "Y"),
    ('х', "x"), ('Х', "X"),
    ('Α', "A"), ('Β', "B"), ('Ε', "E"), ('Η', "H"), ('Ι', "I"), ('Κ', "K"),
    ('Μ', "M"), ('Ν', "N"), ('Ο', "O"), ('Ρ', "P"), ('Τ', "T"), ('Χ', "X"),
    ('Υ', "Y")]

/-- `CONFUSABLE_MAP` lookup. -/
def CONFUSABLE_MAP (c : Char) : Option String :=
  CONFUSABLE_ENTRIES.lookup c

/-- Modelled Unicode data: `unicode_normalization::char::is_combining_mark`
restricted to the combining-mark blocks; exact for every code point this
file evaluates (ASCII, precomposed Latin-1 letters, Greek and Cyrillic
letters are not combining marks; U+0300-U+036F are). -/
def is_combining_mark (c : Char) : Bool :=
  (0x300 ≤ c.toNat ∧ c.toNat ≤ 0x36F) ∨ (0x1AB0 ≤ c.toNat ∧ c.toNat ≤ 0x1AFF) ∨
    (0x1DC0 ≤ c.toNat ∧ c.toNat ≤ 0x1DFF) ∨
    (0x20D0 ≤ c.toNat ∧ c.toNat ≤ 0x20FF) ∨
    (0xFE20 ≤ c.toNat ∧ c.toNat ≤ 0xFE2F)

/-- Modelled Unicode data: the NFKD decomposition of one character
(`str::nfkd()` on a one-character string).  It is the identity on code
points without a decomposition — which is exact for every code point this
file evaluates through it: the analyzer only consults NFKD for characters
outside the three static maps, and the concrete inputs used in the theorems
below (ASCII characters and U+03C0) have no decomposition. -/
def nfkd (c : Char) : List Char :=
  if c = 'é' then ['e', '\u0301']
  else if c = 'ä' then ['a', '\u0308']
  else if c = 'ç' then ['c', '\u0327']
  else [c]

/-- `unicode_script::Script`, restricted to the variants the source names
plus a catch-all. -/
inductive Script where
  | Common
  | Inherited
  | Unknown
  | Latin
  | Cyrillic
  | Greek
  | Han
  | Arabic
  | Hebrew
  | Hiragana
  | Katakana
  | Hangul
  | Other
deriving DecidableEq, Repr

/-- Modelled Unicode data: `char::script()` for the code-point ranges this
file evaluates — ASCII letters are Latin, other ASCII is Common, Latin-1
and Latin Extended letters are Latin (except the Common signs × and ÷),
U+0300-U+036F are Inherited, the Greek and Cyrillic blocks map to their
scripts, and General Punctuation is Common. -/
def script (c : Char) : Script :=
  if (0x41 ≤ c.toNat ∧ c.toNat ≤ 0x5A) ∨ (0x61 ≤ c.toNat ∧ c.toNat ≤ 0x7A) then
    Script.Latin
  else if c.toNat ≤ 0x7F then Script.Common
  else if c.toNat = 0xD7 ∨ c.toNat = 0xF7 then Script.Common
  else if 0xC0 ≤ c.toNat ∧ c.toNat ≤ 0x24F then Script.Latin
  else if c.toNat ≤ 0xBF then Script.Common
  else if 0x300 ≤ c.toNat ∧ c.toNat ≤ 0x36F then Script.Inherited
  else if 0x370 ≤ c.toNat ∧ c.toNat ≤ 0x3FF then Script.Greek
  else if 0x400 ≤ c.toNat ∧ c.toNat ≤ 0x4FF then Script.Cyrillic
  else if 0x2010 ≤ c.toNat ∧ c.toNat ≤ 0x205F then Script.Common
  else Script.Unknown

/-- `major_script` from `src/validator/spec.rs`. -/
def major_script (c : Char) : Option Script :=
  match script c with
  | Script.Common => none
  | Script.Inherited => none
  | Script.Unknown => none
  | s => some s

/-- `script_abbrev` from `src/validator/spec.rs`. -/
def script_abbrev (c : Char) : String :=
  match script c with
  | Script.Cyrillic => "cyr"
  | Script.Greek => "gre"
  | Script.Latin => "lat"
  | Script.Han => "han"
  | Script.Arabic => "ara"
  | Script.Hebrew => "heb"
  | Script.Hiragana => "hira"
  | Script.Katakana => "kata"
  | Script.Hangul => "hang"
  | _ => "unk"

/-- One uppercase hexadecimal digit. -/
def hex_digit (n : Nat) : Char :=
  if n < 10 then Char.ofNat (48 + n) else Char.ofNat (55 + n)

/-- Rust `format!("{:04X}", n)` for code points below `0x10000` (every
combining mark in the modelled blocks is). -/
def to_hex4 (n : Nat) : String :=
  String.mk [hex_digit (n / 4096 % 16), hex_digit (n / 256 % 16),
    hex_digit (n / 16 % 16), hex_digit (n % 16)]

/-- Rust `char::is_ascii` (`c as u32 <= 0x7F`). -/
def char_is_ascii (c : Char) : Bool :=
  c.toNat ≤ 127

/-- `ascii_hint_for_char` from `src/validator/spec.rs` (lines 346-376):
combining marks contribute the empty string, then the confusable, diacritic
and (FrFraud only) typographic maps are consulted, ASCII characters yield
`None` (the caller pushes them verbatim), and otherwise the NFKD
decomposition keeps only ASCII non-combining code points — with `None`
again when nothing remains. -/
def ascii_hint_for_char (ch : Char) (options : SpecOptions) : Option String :=
  if is_combining_mark ch then some ""
  else
    match CONFUSABLE_MAP ch with
    | some repl => some repl
    | none =>
      match DIACRITIC_MAP ch with
      | some repl => some repl
      | none =>
        match (if options.use_fr_hint_extensions then FR_HINT_EXTRA_MAP ch else none) with
        | some repl => some repl
        | none =>
          if char_is_ascii ch then none
          else
            let decomposed :=
              (nfkd ch).filter (fun d => ¬ is_combining_mark d ∧ char_is_ascii d)
            if decomposed.isEmpty then none else some (String.mk decomposed)

/-- Appending a finding to `SpecCharacters`: each push site in
`process_segment` sets the flag of the finding's class together with the
push, exactly as the source does. -/
def add_finding (characters : SpecCharacters) (f : SpecFinding) : SpecCharacters :=
  match f.cls with
  | SpecClass.Confusable =>
    { characters with has_confusables := true, details := characters.details ++ [f] }
  | SpecClass.Diacritic =>
    { characters with has_diacritics := true, details := characters.details ++ [f] }
  | SpecClass.MixedScript =>
    { characters with has_mixed_scripts := true, details := characters.details ++ [f] }

/-- `SegmentResult` from `src/validator/spec.rs`. -/
structure SegmentResult where
  confusable : Bool
  mixed_scripts : Bool
deriving DecidableEq, Repr

/-- The mutable state of one `process_segment` call: the segment result,
the per-segment primary-script tracking, the shared `SpecCharacters`, and
the optional ASCII buffer. -/
structure SegAcc where
  confusable : Bool
  mixed_scripts : Bool
  primary_script : Option Script
  mixed_reported : Bool
  characters : SpecCharacters
  ascii_buf : Option String
deriving Repr

/-- The ASCII-hint block of the character loop
(`src/validator/spec.rs` lines 269-277): push the hint when the helper
returns one, else push the character itself. -/
def ascii_step (options : SpecOptions) (ch : Char) (acc : SegAcc) : SegAcc :=
  match acc.ascii_buf with
  | none => acc
  | some buf =>
    match ascii_hint_for_char ch options with
    | some hint => { acc with ascii_buf := some (buf ++ hint) }
    | none => { acc with ascii_buf := some (buf.push ch) }

/-- The confusable block of the character loop (lines 279-291). -/
def confusable_step (segment : SpecSegment) (options : SpecOptions) (ch : Char)
    (acc : SegAcc) : SegAcc :=
  if options.detect_confusables then
    match CONFUSABLE_MAP ch with
    | some repl =>
      let note := String.singleton ch ++ "(" ++ script_abbrev ch ++ ") → " ++
        repl ++ "(lat)"
      { acc with
        confusable := true
        characters :=
          add_finding acc.characters ⟨segment, ch, SpecClass.Confusable, note⟩ }
    | none => acc
  else acc

/-- The diacritic block of the character loop (lines 293-313). -/
def diacritic_step (segment : SpecSegment) (options : SpecOptions) (ch : Char)
    (acc : SegAcc) : SegAcc :=
  if options.detect_diacritics then
    match DIACRITIC_MAP ch with
    | some repl =>
      let note := String.singleton ch ++ " → " ++ repl ++ " (diacritic)"
      { acc with characters :=
          add_finding acc.characters ⟨segment, ch, SpecClass.Diacritic, note⟩ }
    | none =>
      if is_combining_mark ch then
        let note := "U+" ++ to_hex4 ch.toNat ++ " combining mark removed"
        { acc with characters :=
            add_finding acc.characters ⟨segment, ch, SpecClass.Diacritic, note⟩ }
      else acc
  else acc

/-- The note of a mixed-script finding (lines 322-328). -/
def mixed_note (segment : SpecSegment) : String :=
  match segment with
  | SpecSegment.Local => "mixed scripts in local"
  | SpecSegment.Domain => "mixed scripts in domain"
  | SpecSegment.Label label => "mixed scripts in label \x27" ++ label ++ "\x27"

/-- The mixed-script block of the character loop (lines 315-340): the first
major-script character fixes the segment's primary script; a later
different-script character reports at most one finding per segment. -/
def mixed_step (segment : SpecSegment) (options : SpecOptions) (ch : Char)
    (acc : SegAcc) : SegAcc :=
  if options.detect_mixed_scripts then
    match major_script ch with
    | some s =>
      match acc.primary_script with
      | some primary =>
        if s ≠ primary ∧ ¬ acc.mixed_reported then
          { acc with
            mixed_scripts := true
            mixed_reported := true
            characters :=
              add_finding acc.characters
                ⟨segment, ch, SpecClass.MixedScript, mixed_note segment⟩ }
        else acc
      | none => { acc with primary_script := some s }
    | none => acc
  else acc

/-- One character of the `process_segment` loop (lines 268-341), the four
blocks in source order. -/
def process_char (segment : SpecSegment) (options : SpecOptions) (acc : SegAcc)
    (ch : Char) : SegAcc :=
  mixed_step segment options ch
    (diacritic_step segment options ch
      (confusable_step segment options ch (ascii_step options ch acc)))

/-- `process_segment` from `src/validator/spec.rs` (lines 257-344):
returns the segment result together with the updated characters and ASCII
buffer (the source mutates them through references). -/
def process_segment (segment : SpecSegment) (text : String)
    (options : SpecOptions) (ascii_buf : Option String)
    (characters : SpecCharacters) :
    SegmentResult × SpecCharacters × Option String :=
  let final := text.data.foldl (process_char segment options)
    ⟨false, false, none, false, characters, ascii_buf⟩
  (⟨final.confusable, final.mixed_scripts⟩, final.characters, final.ascii_buf)

/-- `SpecComputation` from `src/validator/spec.rs`. -/
structure SpecComputation where
  characters : SpecCharacters
  confusable_labels_for_policy : List String
  mixed_labels_for_policy : List String
deriving DecidableEq, Repr

/-- The state of the domain-label loop of `analyze_spec_characters`. -/
structure DomainAcc where
  characters : SpecCharacters
  ascii_domain : Option String
  confusable_labels : List String
  mixed_labels : List String
deriving Repr

/-- One label of the domain loop (`src/validator/spec.rs` lines 135-182):
a dot joins the hint buffer when it is non-empty, the label is processed,
and the lowercased label is recorded for policy when its segment had
confusable or mixed-script findings, is not allowlisted, and is not already
recorded. -/
def domain_label_step (options : SpecOptions) (allowlist : List String)
    (acc : DomainAcc) (label : String) : DomainAcc :=
  let buf0 :=
    match acc.ascii_domain with
    | some b => some (if b.isEmpty then b else b ++ ".")
    | none => none
  let r := process_segment (SpecSegment.Label label) label options buf0 acc.characters
  let label_lower := ascii_lower label
  let allowlisted := allowlist.contains label_lower
  let conf :=
    if r.1.confusable ∧ ¬ allowlisted ∧ ¬ acc.confusable_labels.contains label_lower
    then acc.confusable_labels ++ [label_lower]
    else acc.confusable_labels
  let mixed :=
    if r.1.mixed_scripts ∧ ¬ allowlisted ∧ ¬ acc.mixed_labels.contains label_lower
    then acc.mixed_labels ++ [label_lower]
    else acc.mixed_labels
  ⟨r.2.1, r.2.2, conf, mixed⟩

/-- `analyze_spec_characters` from `src/validator/spec.rs` (lines 86-212). -/
def analyze_spec_characters (local_part domain : String) (options : SpecOptions) :
    SpecComputation :=
  let allowlist := options.allowlist_labels.map ascii_lower
  let ascii_local0 : Option String := if options.ascii_hint then some "" else none
  let ascii_domain0 : Option String := if options.ascii_hint then some "" else none
  let local_r :=
    process_segment SpecSegment.Local local_part options ascii_local0
      SpecCharacters.default
  let ascii_local := local_r.2.2
  let labels := if domain.isEmpty then [] else split_char domain '.'
  let dom := labels.foldl (domain_label_step options allowlist)
    ⟨local_r.2.1, ascii_domain0, [], []⟩
  let ascii_domain := dom.ascii_domain.map ascii_lower
  let hint : Option String :=
    match ascii_local, ascii_domain with
    | some lh, some dh =>
      if ¬ dh.isEmpty then some (lh ++ "@" ++ dh)
      else if domain.isEmpty then some lh
      else none
    | some lh, none =>
      if ¬ domain.isEmpty then some (lh ++ "@" ++ ascii_lower domain) else some lh
    | none, some dh =>
      if ¬ dh.isEmpty then
        (if local_part.isEmpty then some dh else some (local_part ++ "@" ++ dh))
      else none
    | none, none => none
  let characters :=
    if options.ascii_hint then
      { dom.characters with normalized_ascii_hint := hint }
    else dom.characters
  ⟨characters, dom.confusable_labels, dom.mixed_labels⟩

/-- The flag of a given class. -/
def flag_of (c : SpecCharacters) : SpecClass → Bool
  | SpecClass.Confusable => c.has_confusables
  | SpecClass.Diacritic => c.has_diacritics
  | SpecClass.MixedScript => c.has_mixed_scripts

/-- Flag consistency: each boolean flag is true iff at least one finding of
that class exists. -/
def FlagsConsistent (c : SpecCharacters) : Prop :=
  ∀ k : SpecClass, flag_of c k = true ↔ ∃ f ∈ c.details, f.cls = k

/-- `add_finding` always appends the finding. -/
theorem add_finding_details (c : SpecCharacters) (f : SpecFinding) :
    (add_finding c f).details = c.details ++ [f] := by
  cases hcls : f.cls <;> simp [add_finding, hcls]

/-- `add_finding` raises the flag of the finding's class. -/
theorem add_finding_flag_true (c : SpecCharacters) (f : SpecFinding) :
    flag_of (add_finding c f) f.cls = true := by
  cases hcls : f.cls <;> simp [add_finding, hcls, flag_of]

/-- `add_finding` leaves the other flags alone. -/
theorem add_finding_flag_other (c : SpecCharacters) (f : SpecFinding)
    (k : SpecClass) (hk : k ≠ f.cls) :
    flag_of (add_finding c f) k = flag_of c k := by
  cases hcls : f.cls <;> cases k <;> simp_all [add_finding, flag_of]

/-- `add_finding` preserves flag consistency. -/
theorem add_finding_consistent (c : SpecCharacters) (f : SpecFinding)
    (h : FlagsConsistent c) : FlagsConsistent (add_finding c f) := by
  intro k
  by_cases hk : k = f.cls
  · subst hk
    constructor
    · intro _
      refine ⟨f, ?_, rfl⟩
      rw [add_finding_details]
      exact List.mem_append_right _ (by simp)
    · intro _
      exact add_finding_flag_true c f
  · rw [add_finding_flag_other c f k hk, add_finding_details]
    constructor
    · intro hflag
      obtain ⟨g, hg, hgk⟩ := (h k).mp hflag
      exact ⟨g, List.mem_append_left _ hg, hgk⟩
    · rintro ⟨g, hg, hgk⟩
      rcases List.mem_append.mp hg with hg | hg
      · exact (h k).mpr ⟨g, hg, hgk⟩
      · rcases List.mem_singleton.mp hg with rfl
        exact absurd hgk.symm hk

/-- The ASCII-hint block never touches the findings record. -/
theorem ascii_step_characters (options : SpecOptions) (ch : Char) (acc : SegAcc) :
    (ascii_step options ch acc).characters = acc.characters := by
  cases hb : acc.ascii_buf with
  | none => simp [ascii_step, hb]
  | some buf =>
    cases hh : ascii_hint_for_char ch options <;> simp [ascii_step, hb, hh]

/-- The confusable block preserves flag consistency. -/
theorem confusable_step_consistent (segment : SpecSegment) (options : SpecOptions)
    (ch : Char) (acc : SegAcc) (h : FlagsConsistent acc.characters) :
    FlagsConsistent (confusable_step segment options ch acc).characters := by
  cases hdet : options.detect_confusables with
  | false => simpa [confusable_step, hdet] using h
  | true =>
    cases hm : CONFUSABLE_MAP ch with
    | none => simpa [confusable_step, hdet, hm] using h
    | some repl =>
      have : (confusable_step segment options ch acc).characters =
          add_finding acc.characters
            ⟨segment, ch, SpecClass.Confusable,
              String.singleton ch ++ "(" ++ script_abbrev ch ++ ") → " ++
                repl ++ "(lat)"⟩ := by
        simp [confusable_step, hdet, hm]
      rw [this]
      exact add_finding_consistent _ _ h

/-- The diacritic block preserves flag consistency. -/
theorem diacritic_step_consistent (segment : SpecSegment) (options : SpecOptions)
    (ch : Char) (acc : SegAcc) (h : FlagsConsistent acc.characters) :
    FlagsConsistent (diacritic_step segment options ch acc).characters := by
  cases hdet : options.detect_diacritics with
  | false => simpa [diacritic_step, hdet] using h
  | true =>
    cases hm : DIACRITIC_MAP ch with
    | some repl =>
      have : (diacritic_step segment options ch acc).characters =
          add_finding acc.characters
            ⟨segment, ch, SpecClass.Diacritic,
              String.singleton ch ++ " → " ++ repl ++ " (diacritic)"⟩ := by
        simp [diacritic_step, hdet, hm]
      rw [this]
      exact add_finding_consistent _ _ h
    | none =>
      cases hcm : is_combining_mark ch with
      | false => simpa [diacritic_step, hdet, hm, hcm] using h
      | true =>
        have : (diacritic_step segment options ch acc).characters =
            add_finding acc.characters
              ⟨segment, ch, SpecClass.Diacritic,
                "U+" ++ to_hex4 ch.toNat ++ " combining mark removed"⟩ := by
          simp [diacritic_step, hdet, hm, hcm]
        rw [this]
        exact add_finding_consistent _ _ h

/-- The mixed-script block preserves flag consistency. -/
theorem mixed_step_consistent (segment : SpecSegment) (options : SpecOptions)
    (ch : Char) (acc : SegAcc) (h : FlagsConsistent acc.characters) :
    FlagsConsistent (mixed_step segment options ch acc).characters := by
  cases hdet : options.detect_mixed_scripts with
  | false => simpa [mixed_step, hdet] using h
  | true =>
    cases hm : major_script ch with
    | none => simpa [mixed_step, hdet, hm] using h
    | some sc =>
      cases hp : acc.primary_script with
      | none => simpa [mixed_step, hdet, hm, hp] using h
      | some primary =>
        simp only [mixed_step, hdet, hm, hp]
        by_cases hcond : sc ≠ primary ∧ ¬ acc.mixed_reported = true
        · rw [if_pos hcond]
          exact add_finding_consistent _ _ h
        · rw [if_neg hcond]
          exact h

/-- One character step preserves flag consistency. -/
theorem process_char_consistent (segment : SpecSegment) (options : SpecOptions)
    (acc : SegAcc) (ch : Char) (h : FlagsConsistent acc.characters) :
    FlagsConsistent (process_char segment options acc ch).characters := by
  unfold process_char
  apply mixed_step_consistent
  apply diacritic_step_consistent
  apply confusable_step_consistent
  rw [ascii_step_characters]
  exact h

/-- The whole character loop preserves flag consistency. -/
theorem foldl_process_char_consistent (segment : SpecSegment)
    (options : SpecOptions) :
    ∀ (l : List Char) (acc : SegAcc), FlagsConsistent acc.characters →
      FlagsConsistent (l.foldl (process_char segment options) acc).characters := by
  intro l
  induction l with
  | nil => intro acc h; exact h
  | cons ch rest ih =>
    intro acc h
    rw [List.foldl_cons]
    exact ih _ (process_char_consistent segment options acc ch h)

/-- `process_segment` preserves flag consistency. -/
theorem process_segment_consistent (segment : SpecSegment) (text : String)
    (options : SpecOptions) (ascii_buf : Option String)
    (characters : SpecCharacters) (h : FlagsConsistent characters) :
    FlagsConsistent (process_segment segment text options ascii_buf characters).2.1 := by
  unfold process_segment
  exact foldl_process_char_consistent segment options text.data
    ⟨false, false, none, false, characters, ascii_buf⟩ h

/-- One domain-label step preserves flag consistency. -/
theorem domain_label_step_consistent (options : SpecOptions)
    (allowlist : List String) (acc : DomainAcc) (label : String)
    (h : FlagsConsistent acc.characters) :
    FlagsConsistent (domain_label_step options allowlist acc label).characters := by
  unfold domain_label_step
  exact process_segment_consistent _ _ _ _ _ h

/-- The domain-label loop preserves flag consistency. -/
theorem foldl_domain_label_consistent (options : SpecOptions)
    (allowlist : List String) :
    ∀ (labels : List String) (acc : DomainAcc), FlagsConsistent acc.characters →
      FlagsConsistent
        ((labels.foldl (domain_label_step options allowlist) acc)).characters := by
  intro labels
  induction labels with
  | nil => intro acc h; exact h
  | cons label rest ih =>
    intro acc h
    rw [List.foldl_cons]
    exact ih _ (domain_label_step_consistent options allowlist acc label h)

/-- Setting the hint field touches neither flags nor details. -/
theorem set_hint_consistent (c : SpecCharacters) (hint : Option String)
    (h : FlagsConsistent c) :
    FlagsConsistent { c with normalized_ascii_hint := hint } := by
  intro k
  exact h k

/-- The final hint assignment preserves flag consistency whichever way the
`ascii_hint` option points. -/
theorem ite_hint_consistent (b : Bool) (c : SpecCharacters) (hint : Option String)
    (h : FlagsConsistent c) :
    FlagsConsistent
      (if b then { c with normalized_ascii_hint := hint } else c) := by
  cases b with
  | false => simpa using h
  | true => simpa using set_hint_consistent c hint h

/-- The empty `SpecCharacters` is consistent. -/
theorem default_consistent : FlagsConsistent SpecCharacters.default := by
  intro k
  cases k <;> simp [SpecCharacters.default, flag_of]

/-- C8: for every input, each boolean flag of the produced `SpecCharacters`
is true iff the details list contains a finding of that class. -/
theorem analyze_flag_consistency (local_part domain : String)
    (options : SpecOptions) :
    ((analyze_spec_characters local_part domain options).characters.has_confusables
          = true ↔
        ∃ f ∈ (analyze_spec_characters local_part domain options).characters.details,
          f.cls = SpecClass.Confusable) ∧
      ((analyze_spec_characters local_part domain options).characters.has_diacritics
          = true ↔
        ∃ f ∈ (analyze_spec_characters local_part domain options).characters.details,
          f.cls = SpecClass.Diacritic) ∧
      ((analyze_spec_characters local_part domain options).characters.has_mixed_scripts
          = true ↔
        ∃ f ∈ (analyze_spec_characters local_part domain options).characters.details,
          f.cls = SpecClass.MixedScript) := by
  have hc : FlagsConsistent (analyze_spec_characters local_part domain options).characters := by
    unfold analyze_spec_characters
    exact ite_hint_consistent _ _ _
      (foldl_domain_label_consistent options
        (options.allowlist_labels.map ascii_lower)
        (if domain.isEmpty then [] else split_char domain '.')
        ⟨(process_segment SpecSegment.Local local_part options
            (if options.ascii_hint then some "" else none)
            SpecCharacters.default).2.1,
          if options.ascii_hint then some "" else none, [], []⟩
        (process_segment_consistent SpecSegment.Local local_part options
          (if options.ascii_hint then some "" else none) SpecCharacters.default
          default_consistent))
  exact ⟨hc SpecClass.Confusable, hc SpecClass.Diacritic, hc SpecClass.MixedScript⟩

/-- C1: evaluating the analyzer at the failing input — the Greek small
letter pi is outside every static map, is not ASCII, and its NFKD
decomposition contributes no ASCII code point, yet the produced hint is
`π@example.com`: `ascii_hint_for_char` returns `None` for such a character
and the caller then pushes the raw non-ASCII character into the hint,
violating the ASCII-purity the specification states. -/
theorem ascii_hint_purity_violated :
    (analyze_spec_characters "π" "example.com"
          SpecOptions.standard).characters.normalized_ascii_hint =
        some "π@example.com" ∧
      ("π@example.com" : String).data.all char_is_ascii = false ∧
      ascii_hint_for_char 'π' SpecOptions.standard = none := by
  refine ⟨by rfl, by decide, by decide⟩

/-- C6 (counterexample): the confusable map covers only 14 distinct
Cyrillic-script characters (7 lowercase/uppercase pairs), not the claimed
15; so the claim fails on the code. -/
theorem confusable_map_cyrillic_count :
    ((CONFUSABLE_ENTRIES.map Prod.fst).filter
          (fun c => script c = Script.Cyrillic)).dedup.length = 14 ∧
      ¬ (15 ≤ ((CONFUSABLE_ENTRIES.map Prod.fst).filter
          (fun c => script c = Script.Cyrillic)).dedup.length) := by
  constructor
  · decide
  · decide

/-- C6 (amended): the static confusable map contains Latin ASCII
replacements for at least 14 distinct Cyrillic-script letters and at least
13 distinct Greek-script letters. -/
theorem confusable_map_coverage :
    14 ≤ ((CONFUSABLE_ENTRIES.map Prod.fst).filter
          (fun c => script c = Script.Cyrillic)).dedup.length ∧
      13 ≤ ((CONFUSABLE_ENTRIES.map Prod.fst).filter
          (fun c => script c = Script.Greek)).dedup.length ∧
      CONFUSABLE_ENTRIES.all (fun p => p.2.data.all char_is_ascii) = true := by
  refine ⟨by decide, by decide, by decide⟩

end Validator

end Mailcheck
